import Mathlib

/-!
Verification of the binance_scrapper repository core: imbalance scoring
(`src/report.py`), ratio-record parsing and the resilient fetcher
(`src/binance_client.py`), symbol selection (`src/binance_client.py`),
metric collection (`src/main.py`) and report batching
(`src/find_imbalanced.py`).

Numbers are embedded as rationals (the Python code works with `float`;
the algorithms here involve only field arithmetic and comparisons, which
the rational embedding captures exactly).  Python dictionaries with
possibly-missing or non-numeric entries are embedded with explicit sum
types.  Network effects are embedded by passing an explicit oracle that
maps a request description to its outcome.
-/

/-- A dictionary entry that the code reads with `float(d[key])` (or
`float(d.get(key, 0.0))`): the key may be absent, present but not
convertible to a number, or numeric. -/
inductive RatioField where
  | missing
  | nonNumeric
  | num (r : ℚ)
deriving DecidableEq, Repr

/-- A parsed metric, the dictionary produced by
`BinanceClient._parse_record`: numeric `ratio`, derived `long_pct` and
`short_pct`, optional epoch-milliseconds timestamp. -/
structure Metric where
  ratio : ℚ
  long_pct : ℚ
  short_pct : ℚ
  timestamp : Option ℤ
deriving DecidableEq, Repr

/-- The raw dictionary handed to `_imbalance_value` in `report.py`: an
arbitrary dict whose `"ratio"` entry may be missing or non-numeric. -/
structure RawMetric where
  ratio : RatioField
deriving DecidableEq, Repr

/-- A parsed metric viewed as the dictionary passed to `_imbalance_value`
(its `"ratio"` entry is always numeric). -/
def Metric.raw (m : Metric) : RawMetric := ⟨RatioField.num m.ratio⟩

/-- `report._imbalance_value` on a raw dictionary (`None`/empty dict is
`none`): `0.0` when the metric is falsy, when `float(metric["ratio"])`
raises, or when `ratio <= 0`; otherwise `ratio if ratio >= 1 else 1/ratio`. -/
def imbalance_value_raw : Option RawMetric → ℚ
  | none => 0
  | some m =>
    match m.ratio with
    | RatioField.missing => 0
    | RatioField.nonNumeric => 0
    | RatioField.num ratio =>
      if ratio ≤ 0 then 0
      else if 1 ≤ ratio then ratio else 1 / ratio

/-- `report._imbalance_value` applied to a parsed metric (the only shape
that flows through the program after `_parse_record`). -/
def imbalance_value (m : Option Metric) : ℚ :=
  imbalance_value_raw (m.map Metric.raw)

/-- `report.HIGHLIGHT_THRESHOLD = 2.3`. -/
def HIGHLIGHT_THRESHOLD : ℚ := 23 / 10

/-- A pair snapshot, the dictionary built by `main.collect_metrics`:
symbol plus the three optional parsed metrics. -/
structure PairSnapshot where
  symbol : String
  accounts : Option Metric
  positions : Option Metric
  global : Option Metric
deriving DecidableEq, Repr

/-- `report._pair_max_imbalance`: the maximum of `_imbalance_value` over
the three metrics (`max(..., default=0.0)` over a three-element
generator, so the default is never used). -/
def pair_max_imbalance (item : PairSnapshot) : ℚ :=
  max (imbalance_value item.accounts)
    (max (imbalance_value item.positions) (imbalance_value item.global))

/-- The raw record handed to `BinanceClient._parse_record`:
`longShortRatio` entry (possibly missing or non-numeric) and an optional
numeric `timestamp` (epoch milliseconds; `none` embeds both an absent and
a non-numeric entry, which the code maps to `None` alike). -/
structure Record where
  longShortRatio : RatioField
  timestamp : Option ℤ
deriving DecidableEq, Repr

/-- `BinanceClient._parse_record`: `float(record["longShortRatio"])`
(raising `ValueError` on a missing or non-numeric entry, embedded as
`Except.error "Invalid record"`), then `long_pct = ratio / (1 + ratio) *
100` and `short_pct = 100 - long_pct`.  The division sits OUTSIDE the
`try` block, so at `ratio = -1` Python raises an uncaught
`ZeroDivisionError`; that distinct failure is embedded as
`Except.error "ZeroDivisionError"` rather than collapsed into the total
rational division. -/
def parse_record (record : Record) : Except String Metric :=
  match record.longShortRatio with
  | RatioField.missing => Except.error "Invalid record"
  | RatioField.nonNumeric => Except.error "Invalid record"
  | RatioField.num ratio =>
    if 1 + ratio = 0 then Except.error "ZeroDivisionError"
    else
      let long_pct := ratio / (1 + ratio) * 100
      let short_pct := 100 - long_pct
      Except.ok ⟨ratio, long_pct, short_pct, record.timestamp⟩

/-- Round a rational to the nearest integer, ties to even — the rounding
used by Python's fixed-point string formatting (`f"{v:.2f}"`). -/
def roundHalfEven (x : ℚ) : ℤ :=
  let f := ⌊x⌋
  let frac := x - f
  if frac < 1 / 2 then f
  else if 1 / 2 < frac then f + 1
  else if f % 2 = 0 then f else f + 1

/-- Render an integer number of hundredths as a decimal numeral with two
digits after the point. -/
def hundredthsToString (n : ℤ) : String :=
  let a := n.natAbs
  let sign := if n < 0 then "-" else ""
  let fp := a % 100
  sign ++ toString (a / 100) ++ "." ++ (if fp < 10 then "0" else "") ++ toString fp

/-- `report._fmt_pct`: `f"{value:.2f}%"`. -/
def fmt_pct (value : ℚ) : String :=
  hundredthsToString (roundHalfEven (value * 100)) ++ "%"

/-- `report._fmt_ratio`: `f"{value:.2f}x"`. -/
def fmt_ratio (value : ℚ) : String :=
  hundredthsToString (roundHalfEven (value * 100)) ++ "x"

/-- The `content` local of `report._format_metric`. -/
def metric_content (label : String) (m : Metric) : String :=
  "<b>" ++ label ++ "</b>: long " ++ fmt_pct m.long_pct ++ " / short " ++
    fmt_pct m.short_pct ++ " (" ++ fmt_ratio m.ratio ++ ")"

/-- `report._format_metric`: `n/a` for a falsy metric, otherwise the
content line, wrapped in a warning marker and bold when the imbalance
factor strictly exceeds `HIGHLIGHT_THRESHOLD`. -/
def format_metric (label : String) (metric : Option Metric) : String :=
  match metric with
  | none => "<b>" ++ label ++ "</b>: n/a"
  | some m =>
    if HIGHLIGHT_THRESHOLD < imbalance_value (some m) then
      "⚠️ <b>" ++ metric_content label m ++ "</b>"
    else metric_content label m

/-- The descending-key order used by
`sorted(pairs, key=_pair_max_imbalance, reverse=True)`. -/
def pairGE (a b : PairSnapshot) : Prop :=
  pair_max_imbalance b ≤ pair_max_imbalance a

instance : DecidableRel pairGE :=
  fun _ _ => inferInstanceAs (Decidable (_ ≤ _))

instance : IsTotal PairSnapshot pairGE :=
  ⟨fun a b => le_total (pair_max_imbalance b) (pair_max_imbalance a)⟩

instance : IsTrans PairSnapshot pairGE :=
  ⟨fun _ _ _ h1 h2 => le_trans h2 h1⟩

/-- `sorted(pairs, key=_pair_max_imbalance, reverse=True)`.  Python's
`sorted` is a stable sort; insertion sort under the reflexive relation
"key of the left is at least key of the right" is stable and descending,
and a stable sort by a key is unique, so this is the same list Python
produces. -/
def sorted_by_imbalance (pairs : List PairSnapshot) : List PairSnapshot :=
  List.insertionSort pairGE pairs

/-- The scoring tail of `find_imbalanced.find_top_imbalances` (the part
after metric collection): sort all collected snapshots descending by
`_pair_max_imbalance`, keep the ones strictly above the threshold, and
return the top `limit` of the sorted list together with that filtered
sublist. -/
def find_top_imbalances (metrics : List PairSnapshot) (limit : ℕ) :
    List PairSnapshot × List PairSnapshot :=
  let sorted_pairs := sorted_by_imbalance metrics
  let imbalanced :=
    sorted_pairs.filter (fun m => decide (HIGHLIGHT_THRESHOLD < pair_max_imbalance m))
  (sorted_pairs.take limit, imbalanced)

/-- One entry of the `exchangeInfo` symbols list, with the four fields
`BinanceClient.list_usdt_perpetual_symbols` reads via `.get` (each may be
absent). -/
structure ExchangeSymbolInfo where
  contractType : Option String
  quoteAsset : Option String
  status : Option String
  symbol : Option String
deriving DecidableEq, Repr

/-- `BinanceClient.list_usdt_perpetual_symbols` on the decoded
`exchangeInfo` symbols list: keep the symbols whose entry has contract
type `PERPETUAL`, quote asset `USDT`, status `TRADING`, and a truthy
`symbol` field. -/
def list_usdt_perpetual_symbols (data : List ExchangeSymbolInfo) : List String :=
  data.filterMap (fun item =>
    if item.contractType ≠ some "PERPETUAL" then none
    else if item.quoteAsset ≠ some "USDT" then none
    else if item.status ≠ some "TRADING" then none
    else
      match item.symbol with
      | none => none
      | some s => if s = "" then none else some s)

/-- One 24h ticker entry, with the fields the symbol selector reads. -/
structure Ticker where
  symbol : Option String
  quoteVolume : RatioField
deriving DecidableEq, Repr

/-- `float(t.get("quoteVolume", 0.0))`: an absent entry falls back to the
`0.0` default, a non-numeric entry raises (embedded as `none`, which
skips the ticker), a numeric entry converts. -/
def ticker_quote_volume : RatioField → Option ℚ
  | RatioField.missing => some 0
  | RatioField.nonNumeric => none
  | RatioField.num v => some v

/-- The scoring loop of `BinanceClient.list_top_volume_usdt_perpetual`:
for each ticker take `str(t.get("symbol", ""))`, keep it when it is in
the allowed set, pairing it with its parsed quote volume; a ticker whose
volume fails to parse is skipped (`except Exception: continue`). -/
def score_tickers (allowed : List String) (tickers : List Ticker) :
    List (String × ℚ) :=
  tickers.filterMap (fun t =>
    let symbol := t.symbol.getD ""
    if symbol ∈ allowed then
      (ticker_quote_volume t.quoteVolume).map (fun vol => (symbol, vol))
    else none)

/-- The descending-volume order of `scored.sort(key=lambda x: x[1],
reverse=True)`. -/
def volGE (a b : String × ℚ) : Prop := b.2 ≤ a.2

instance : DecidableRel volGE :=
  fun _ _ => inferInstanceAs (Decidable (_ ≤ _))

instance : IsTotal (String × ℚ) volGE := ⟨fun a b => le_total b.2 a.2⟩

instance : IsTrans (String × ℚ) volGE := ⟨fun _ _ _ h1 h2 => le_trans h2 h1⟩

/-- `BinanceClient.list_top_volume_usdt_perpetual`: score the tickers
against the allowed perpetual/USDT/trading set, stable-sort descending by
volume, truncate to `limit`, return the symbols. -/
def list_top_volume_usdt_perpetual (data : List ExchangeSymbolInfo)
    (tickers : List Ticker) (limit : ℕ) : List String :=
  let allowed := list_usdt_perpetual_symbols data
  let scored := score_tickers allowed tickers
  ((List.insertionSort volGE scored).take limit).map Prod.fst

/-- The three per-symbol metric calls of `BinanceClient` as seen by
`main.collect_metrics`: each either returns a parsed metric or raises
(embedded as `Except.error` carrying the exception text). -/
structure BinanceCalls where
  top_trader_accounts : String → Except String Metric
  top_trader_positions : String → Except String Metric
  global_long_short : String → Except String Metric

/-- `main.collect_metrics`: for each symbol in order, call the three
metric endpoints inside one `try`; if all three succeed append a fully
populated snapshot to `results`, otherwise append `f"{symbol}: {exc}"`
for the first raising call to `errors` and produce no snapshot. -/
def collect_metrics (client : BinanceCalls) : List String → List PairSnapshot × List String
  | [] => ([], [])
  | symbol :: rest =>
    let tail := collect_metrics client rest
    match client.top_trader_accounts symbol with
    | Except.error exc => (tail.1, (symbol ++ ": " ++ exc) :: tail.2)
    | Except.ok accounts =>
      match client.top_trader_positions symbol with
      | Except.error exc => (tail.1, (symbol ++ ": " ++ exc) :: tail.2)
      | Except.ok positions =>
        match client.global_long_short symbol with
        | Except.error exc => (tail.1, (symbol ++ ": " ++ exc) :: tail.2)
        | Except.ok global_ratio =>
          (⟨symbol, some accounts, some positions, some global_ratio⟩ :: tail.1,
            tail.2)

/-- Whether all three metric calls succeed for a symbol. -/
def symbol_ok (client : BinanceCalls) (symbol : String) : Bool :=
  (client.top_trader_accounts symbol).isOk &&
    ((client.top_trader_positions symbol).isOk &&
      (client.global_long_short symbol).isOk)

/-- The labeled error string `f"{symbol}: {exc}"` recorded for a symbol
whose collection fails (`exc` from the first raising call; the final
fallback arm is unreachable when some call fails). -/
def symbol_error (client : BinanceCalls) (symbol : String) : String :=
  match client.top_trader_accounts symbol with
  | Except.error exc => symbol ++ ": " ++ exc
  | Except.ok _ =>
    match client.top_trader_positions symbol with
    | Except.error exc => symbol ++ ": " ++ exc
    | Except.ok _ =>
      match client.global_long_short symbol with
      | Except.error exc => symbol ++ ": " ++ exc
      | Except.ok _ => symbol ++ ": "

/-- The snapshot a symbol contributes when all three calls succeed. -/
def snapshot_of (client : BinanceCalls) (symbol : String) : Option PairSnapshot :=
  match client.top_trader_accounts symbol, client.top_trader_positions symbol,
      client.global_long_short symbol with
  | Except.ok a, Except.ok p, Except.ok g => some ⟨symbol, some a, some p, some g⟩
  | _, _, _ => none

/-- A concrete client whose accounts call always raises while the
positions and global calls succeed. -/
def partialClient : BinanceCalls :=
  ⟨fun _ => Except.error "HTTP 451",
   fun _ => Except.ok ⟨1, 50, 50, none⟩,
   fun _ => Except.ok ⟨1, 50, 50, none⟩⟩

/-- The endpoint/proxy state a `BinanceClient` carries across `_request`
calls: the candidate pools (fixed at construction) and the preferred
entries (updated after each success). -/
structure ClientState where
  base_urls : List String
  free_proxies : List String
  preferred_base : Option String
  preferred_proxy : Option String
deriving DecidableEq, Repr

/-- The base ordering of `_request`: when `preferred_base` is set and in
the pool it moves to the front, ahead of the remaining bases in pool
order. -/
def ordered_bases (st : ClientState) : List String :=
  match st.preferred_base with
  | some pb =>
    if pb ∈ st.base_urls then pb :: st.base_urls.filter (fun b => b != pb)
    else st.base_urls
  | none => st.base_urls

/-- `proxy_candidates` of `_request`: the direct (no-proxy) option first,
then the free-proxy pool. -/
def proxy_candidates (st : ClientState) : List (Option String) :=
  none :: st.free_proxies.map some

/-- `effective_proxies` of `_request`: when `preferred_proxy` is set it is
placed in front of the remaining candidates (the source performs no
membership test here). -/
def effective_proxies (st : ClientState) : List (Option String) :=
  match st.preferred_proxy with
  | some pp => some pp :: (proxy_candidates st).filter (fun p => p != some pp)
  | none => proxy_candidates st

/-- One (endpoint, proxy, attempt) combination tried by `_request`. -/
structure Combo where
  base : String
  proxy : Option String
  attempt : ℕ
deriving DecidableEq, Repr

/-- All (endpoint × proxy × attempt) combinations in the order the three
nested loops of `_request` try them. -/
def combos (st : ClientState) (max_attempts : ℕ) : List Combo :=
  (ordered_bases st).flatMap (fun base =>
    (effective_proxies st).flatMap (fun proxy =>
      (List.range max_attempts).map (fun a => ⟨base, proxy, a⟩)))

/-- The `last_error` text `f"{url} attempt {attempt + 1} proxy={proxy}
failed: {exc}"`. -/
def attempt_error (url : String) (attempt : ℕ) (proxy : Option String)
    (exc : String) : String :=
  url ++ " attempt " ++ toString (attempt + 1) ++ " proxy=" ++
    (match proxy with | none => "None" | some p => p) ++ " failed: " ++ exc

/-- Outcome of `_request`: parsed data plus the updated client state, or
the final `raise last_error` (`none` embeds a raise of the initial
`last_error = None`, which never happens with a nonempty pool). -/
inductive ReqOutcome (α : Type) where
  | ok (data : α) (st : ClientState)
  | err (last_error : Option String)
deriving DecidableEq, Repr

/-- The nested loops of `_request` flattened over the combination list:
on the first success return the data and promote the base (and the proxy,
when one was used); on failure record `last_error` and continue; when the
combinations are exhausted raise the most recent failure. -/
def run_combos {α : Type} (oracle : String → Option String → ℕ → Except String α)
    (path : String) (st : ClientState) :
    List Combo → Option String → ReqOutcome α
  | [], last_error => ReqOutcome.err last_error
  | c :: rest, _ =>
    match oracle (c.base ++ path) c.proxy c.attempt with
    | Except.ok data =>
      ReqOutcome.ok data
        { st with
          preferred_base := some c.base,
          preferred_proxy := if c.proxy.isSome then c.proxy else st.preferred_proxy }
    | Except.error exc =>
      run_combos oracle path st rest
        (some (attempt_error (c.base ++ path) c.attempt c.proxy exc))

/-- `BinanceClient._request`: try every (endpoint × proxy × attempt)
combination in order (`max_attempts = max(1, ...)`), where the oracle
gives the outcome of `session.get(url, ...)` followed by JSON decoding
for each attempt. -/
def request {α : Type} (st : ClientState)
    (oracle : String → Option String → ℕ → Except String α)
    (max_attempts0 : ℕ) (path : String) : ReqOutcome α :=
  run_combos oracle path st (combos st (max 1 max_attempts0)) none

/-- A concrete two-endpoint oracle: every attempt against base `E1`
fails, every attempt against base `E2` succeeds with value `42`. -/
def oracleE1E2 : String → Option String → ℕ → Except String ℕ :=
  fun url _ _ => if url = "E2/x" then Except.ok 42 else Except.error "down"

/-- The fixed proxy-list source URL for type `http`. -/
def iplocate_http_url : String :=
  "https://raw.githubusercontent.com/iplocate/free-proxy-list/refs/heads/main/protocols/http.txt"

/-- The fixed proxy-list source URL for type `https`. -/
def iplocate_https_url : String :=
  "https://raw.githubusercontent.com/iplocate/free-proxy-list/refs/heads/main/protocols/https.txt"

/-- The `sources` dict of `_load_free_proxies`: entries for `http` and
`https`, the `https` entry replaced by `BINANCE_FREE_PROXY_URL` when that
variable is set; `.get` on any other type yields nothing. -/
def proxy_sources (custom_proxy_url : Option String) : String → Option String :=
  fun t =>
    if t = "http" then some iplocate_http_url
    else if t = "https" then some (custom_proxy_url.getD iplocate_https_url)
    else none

/-- `[line.strip() for line in resp.text.splitlines() if ":" in line]`
(the bodies are newline-delimited `host:port` lists, so splitting on
`"\n"` models `splitlines`). -/
def candidate_lines (text : String) : List String :=
  (text.splitOn "\n").filterMap (fun line =>
    if line.contains ':' then some line.trim else none)

/-- The inner dedup/normalize loop of `_load_free_proxies` over one
source's candidate lines, threading the `seen` set and the `raw_proxies`
accumulator: skip an already-seen `host:port`, otherwise record it and
append `f"http://{p}"`. -/
def add_candidates : List String → List String → List String → List String × List String
  | [], seen, raw => (seen, raw)
  | p :: rest, seen, raw =>
    if p ∈ seen then add_candidates rest seen raw
    else add_candidates rest (p :: seen) (raw ++ ["http://" ++ p])

/-- The per-type source loop of `_load_free_proxies`: look up the type's
source URL (skip unknown types), fetch it (skip the source on any fetch
failure), and fold the body's candidate lines into the accumulator. -/
def load_sources (fetch : String → Except String String)
    (sources : String → Option String) :
    List String → List String → List String → List String × List String
  | [], seen, raw => (seen, raw)
  | t :: rest, seen, raw =>
    match sources t with
    | none => load_sources fetch sources rest seen raw
    | some url =>
      match fetch url with
      | Except.error _ => load_sources fetch sources rest seen raw
      | Except.ok body =>
        load_sources fetch sources rest
          (add_candidates (candidate_lines body) seen raw).1
          (add_candidates (candidate_lines body) seen raw).2

/-- `BinanceClient._load_free_proxies`: `types = types or ["https"]`,
collect and dedup across all sources, then truncate to `limit`. -/
def load_free_proxies (fetch : String → Except String String)
    (custom_proxy_url : Option String) (limit : ℕ) (types0 : List String) :
    List String :=
  let types := if types0 = [] then ["https"] else types0
  let raw_proxies :=
    (load_sources fetch (proxy_sources custom_proxy_url) types [] []).2
  raw_proxies.take limit

/-- The concatenated candidate lines of all successfully fetched sources,
in source order — the discovery stream that `_load_free_proxies`
deduplicates. -/
def discovered_lines (fetch : String → Except String String)
    (sources : String → Option String) : List String → List String
  | [] => []
  | t :: rest =>
    match sources t with
    | none => discovered_lines fetch sources rest
    | some url =>
      match fetch url with
      | Except.error _ => discovered_lines fetch sources rest
      | Except.ok body => candidate_lines body ++ discovered_lines fetch sources rest

/-- First-occurrence deduplication relative to an already-seen set. -/
def dedup_first (seen : List String) : List String → List String
  | [] => []
  | x :: xs =>
    if x ∈ seen then dedup_first seen xs
    else x :: dedup_first (x :: seen) xs

/-- A fetch oracle for which every request fails. -/
def fetchFail : String → Except String String := fun _ => Except.error "timeout"

/-- The `lines` list that `report.build_message` joins with newlines: the
fixed title line, the run-timestamp line (`run_utc` stands for the
pre-formatted `%Y-%m-%d %H:%M UTC` string, whose rendering from a clock
is outside the embedding), then per snapshot — sorted descending by
imbalance — a blank separator, the symbol heading and the three metric
lines, and finally a warnings section when `errors` is truthy (the empty
list embeds both `None` and `[]`). -/
def build_message_lines (run_utc : String) (pairs : List PairSnapshot)
    (errors : List String) : List String :=
  ["⭐️ <b>Binance Futures Long/Short (1d)</b>",
   "<i>Run: " ++ run_utc ++ "</i>"] ++
  (sorted_by_imbalance pairs).flatMap (fun item =>
    ["", "<u><b>" ++ item.symbol ++ "</b></u>",
     "• " ++ format_metric "Accounts 1d" item.accounts,
     "• " ++ format_metric "Positions 1d" item.positions,
     "• " ++ format_metric "Global 1d" item.global]) ++
  (if errors = [] then []
   else "" :: "⚠️ <b>Warnings</b>:" :: errors.map (fun err => "• " ++ err))

/-- `report.build_message`: `"\n".join(lines)`. -/
def build_message (run_utc : String) (pairs : List PairSnapshot)
    (errors : List String) : String :=
  String.intercalate "\n" (build_message_lines run_utc pairs errors)

/-- `[lst[i:i + batch_size] for i in range(0, len(lst), batch_size)]` for
a positive batch size, by structural recursion on a length fuel. -/
def chunks_aux {α : Type} (batch_size : ℕ) : ℕ → List α → List (List α)
  | 0, _ => []
  | _ + 1, [] => []
  | fuel + 1, x :: xs =>
    (x :: xs).take batch_size :: chunks_aux batch_size fuel ((x :: xs).drop batch_size)

/-- The batch split of `find_imbalanced.main`. -/
def chunks {α : Type} (batch_size : ℕ) (l : List α) : List (List α) :=
  chunks_aux batch_size l.length l

/-- The per-part suffix of `find_imbalanced.main`: the source splits the
rendered message on `"\n"`, appends `f" (part {idx}/{total_parts})"` to
the first line and re-joins.  The first line of every rendered message is
the constant title, which contains no newline, and joining after
splitting is the identity, so the operation equals suffixing the first
element of the line list before joining. -/
def add_part_suffix_lines (msg_lines : List String) (idx total_parts : ℕ) :
    List String :=
  match msg_lines with
  | [] => []
  | first :: rest =>
    (first ++ " (part " ++ toString idx ++ "/" ++ toString total_parts ++ ")") ::
      rest

/-- The Telegram branch of `find_imbalanced.main` for a non-empty
highlighted list: split into batches of 10, render each batch with
`build_message` (no error section), and when there is more than one part
suffix each message's first line with `(part i/N)`. -/
def telegram_messages (run_utc : String)
    (imbalanced_pairs : List PairSnapshot) : List String :=
  let batch_size := 10
  let batches := chunks batch_size imbalanced_pairs
  let total_parts := batches.length
  batches.enum.map (fun p =>
    if total_parts > 1 then
      String.intercalate "\n"
        (add_part_suffix_lines (build_message_lines run_utc p.2 [])
          (p.1 + 1) total_parts)
    else build_message run_utc p.2 [])

/-- C1: for a numeric ratio `r > 0` the imbalance factor is
`max r (1/r)`, is at least `1`, and is exactly `1` at `r = 1`; an absent
metric, a missing or non-numeric ratio, and a ratio `≤ 0` all give factor
`0`; a snapshot's imbalance is the maximum of its three factors, `0` when
no metric is present. -/
theorem C1_imbalance_factor :
    (∀ r : ℚ, 0 < r →
      imbalance_value_raw (some ⟨RatioField.num r⟩) = max r (1 / r) ∧
      1 ≤ imbalance_value_raw (some ⟨RatioField.num r⟩)) ∧
    imbalance_value_raw (some ⟨RatioField.num 1⟩) = 1 ∧
    imbalance_value_raw none = 0 ∧
    imbalance_value_raw (some ⟨RatioField.missing⟩) = 0 ∧
    imbalance_value_raw (some ⟨RatioField.nonNumeric⟩) = 0 ∧
    (∀ r : ℚ, r ≤ 0 → imbalance_value_raw (some ⟨RatioField.num r⟩) = 0) ∧
    (∀ p : PairSnapshot,
      imbalance_value p.accounts ≤ pair_max_imbalance p ∧
      imbalance_value p.positions ≤ pair_max_imbalance p ∧
      imbalance_value p.global ≤ pair_max_imbalance p ∧
      (pair_max_imbalance p = imbalance_value p.accounts ∨
       pair_max_imbalance p = imbalance_value p.positions ∨
       pair_max_imbalance p = imbalance_value p.global)) ∧
    (∀ p : PairSnapshot, p.accounts = none → p.positions = none →
      p.global = none → pair_max_imbalance p = 0) := by
  refine ⟨?_, ?_, rfl, rfl, rfl, ?_, ?_, ?_⟩
  · intro r hr
    have hr' : ¬ r ≤ 0 := not_le.mpr hr
    by_cases h1 : 1 ≤ r
    · have hinv : 1 / r ≤ r := by
        calc 1 / r ≤ 1 := by
              rw [div_le_one hr]; exact h1
          _ ≤ r := h1
      constructor
      · rw [max_eq_left hinv]
        simp [imbalance_value_raw, hr', h1]
      · simp [imbalance_value_raw, hr', h1]
    · have hlt : r < 1 := not_le.mp h1
      have hinv : 1 ≤ 1 / r := by
        rw [le_div_iff₀ hr]; simpa using hlt.le
      constructor
      · have hle : r ≤ 1 / r := by
          calc r ≤ 1 := hlt.le
            _ ≤ 1 / r := hinv
        rw [max_eq_right hle]
        simp [imbalance_value_raw, hr', h1]
      · simpa [imbalance_value_raw, hr', h1] using hinv
  · norm_num [imbalance_value_raw]
  · intro r hr
    simp [imbalance_value_raw, hr]
  · intro p
    refine ⟨le_max_left _ _, le_trans (le_max_left _ _) (le_max_right _ _),
      le_trans (le_max_right _ _) (le_max_right _ _), ?_⟩
    rcases max_choice (imbalance_value p.accounts)
        (max (imbalance_value p.positions) (imbalance_value p.global)) with h | h
    · exact Or.inl h
    · rcases max_choice (imbalance_value p.positions)
          (imbalance_value p.global) with h' | h'
      · exact Or.inr (Or.inl (by rw [pair_max_imbalance, h, h']))
      · exact Or.inr (Or.inr (by rw [pair_max_imbalance, h, h']))
  · intro p ha hp hg
    simp [pair_max_imbalance, ha, hp, hg, imbalance_value, imbalance_value_raw]

/-- Witness for C1 at `r = 2`, at `r = -3`, and at a snapshot with no
metric present. -/
theorem C1_imbalance_factor_witness :
    imbalance_value_raw (some ⟨RatioField.num 2⟩) = max 2 (1 / 2 : ℚ) ∧
    imbalance_value_raw (some ⟨RatioField.num (-3)⟩) = 0 ∧
    pair_max_imbalance ⟨"BTCUSDT", none, none, none⟩ = 0 := by
  refine ⟨(C1_imbalance_factor.1 2 (by norm_num)).1,
    C1_imbalance_factor.2.2.2.2.2.1 (-3) (by norm_num),
    C1_imbalance_factor.2.2.2.2.2.2.2 ⟨"BTCUSDT", none, none, none⟩ rfl rfl rfl⟩

/-- C3 counterexample: at numeric ratio `-1` the source's
`ratio / (1 + ratio)` — computed outside the `try` block — raises an
uncaught `ZeroDivisionError`, so parsing a record with a numeric ratio
field does NOT always produce the long/short percentages. -/
theorem C3_parse_record_counterexample :
    parse_record ⟨RatioField.num (-1), some 0⟩ =
      Except.error "ZeroDivisionError" := by
  norm_num [parse_record]

/-- C3 amended: parsing a record with numeric ratio `r` with
`1 + r ≠ 0` succeeds and yields `long_pct = r / (1 + r) * 100` and
`short_pct = 100 - long_pct`; every successful parse satisfies
`long_pct + short_pct = 100` and the `long_pct` formula; a missing or
non-numeric ratio makes parsing fail; and at `r = -1` parsing fails with
the division-by-zero error. -/
theorem C3_parse_record_amended :
    (∀ ts : Option ℤ, ∀ r : ℚ, 1 + r ≠ 0 →
      parse_record ⟨RatioField.num r, ts⟩ =
        Except.ok ⟨r, r / (1 + r) * 100, 100 - r / (1 + r) * 100, ts⟩) ∧
    (∀ ts : Option ℤ, ∀ r : ℚ, ∀ m : Metric,
      parse_record ⟨RatioField.num r, ts⟩ = Except.ok m →
        m.long_pct + m.short_pct = 100 ∧ m.long_pct = r / (1 + r) * 100) ∧
    (∀ ts : Option ℤ,
      parse_record ⟨RatioField.missing, ts⟩ = Except.error "Invalid record") ∧
    (∀ ts : Option ℤ,
      parse_record ⟨RatioField.nonNumeric, ts⟩ = Except.error "Invalid record") ∧
    (∀ ts : Option ℤ,
      parse_record ⟨RatioField.num (-1), ts⟩ =
        Except.error "ZeroDivisionError") := by
  refine ⟨?_, ?_, fun ts => rfl, fun ts => rfl, ?_⟩
  · intro ts r hr
    simp only [parse_record, if_neg hr]
  · intro ts r m hm
    by_cases hr : 1 + r = 0
    · simp only [parse_record, if_pos hr] at hm
      exact absurd hm (by simp)
    · simp only [parse_record, if_neg hr] at hm
      have heq : (⟨r, r / (1 + r) * 100, 100 - r / (1 + r) * 100, ts⟩ : Metric) = m := by
        simpa using hm
      subst heq
      constructor
      · ring
      · rfl
  · intro ts
    norm_num [parse_record]

/-- Witness for C3 (amended) at ratio `3`: parsing succeeds and the
percentages sum to `100`. -/
theorem C3_parse_record_amended_witness :
    parse_record ⟨RatioField.num 3, some 0⟩ =
      Except.ok ⟨3, 3 / (1 + 3) * 100, 100 - 3 / (1 + 3) * 100, some 0⟩ ∧
    (3 : ℚ) / (1 + 3) * 100 + (100 - 3 / (1 + 3) * 100) = 100 := by
  have hok := C3_parse_record_amended.1 (some 0) 3 (by norm_num)
  exact ⟨hok, (C3_parse_record_amended.2.1 (some 0) 3 _ hok).1⟩

/-- C2: the scorer sorts the snapshot list descending by per-pair maximum
imbalance factor (a permutation of the input), and the highlighted subset
consists of exactly the snapshots whose factor strictly exceeds
`HIGHLIGHT_THRESHOLD = 2.3`, in the same descending order (a sublist of
the sorted list); a factor of exactly `2.3` is excluded and rendered
without emphasis, while a factor of `2.31` is included and rendered with
the warning emphasis. -/
theorem C2_scorer_threshold :
    ∀ (metrics : List PairSnapshot) (limit : ℕ),
      List.Perm (sorted_by_imbalance metrics) metrics ∧
      List.Sorted pairGE (sorted_by_imbalance metrics) ∧
      List.Sublist (find_top_imbalances metrics limit).2 (sorted_by_imbalance metrics) ∧
      List.Sorted pairGE (find_top_imbalances metrics limit).2 ∧
      (∀ p, p ∈ (find_top_imbalances metrics limit).2 ↔
        p ∈ metrics ∧ HIGHLIGHT_THRESHOLD < pair_max_imbalance p) ∧
      (∀ p, pair_max_imbalance p = HIGHLIGHT_THRESHOLD →
        p ∉ (find_top_imbalances metrics limit).2) ∧
      (∀ label m, imbalance_value (some m) = HIGHLIGHT_THRESHOLD →
        format_metric label (some m) = metric_content label m) ∧
      (∀ label m, imbalance_value (some m) = 231 / 100 →
        format_metric label (some m) = "⚠️ <b>" ++ metric_content label m ++ "</b>") := by
  intro metrics limit
  have hmem : ∀ p, p ∈ (find_top_imbalances metrics limit).2 ↔
      p ∈ metrics ∧ HIGHLIGHT_THRESHOLD < pair_max_imbalance p := by
    intro p
    rw [find_top_imbalances]
    simp only [List.mem_filter, decide_eq_true_eq, sorted_by_imbalance]
    rw [(List.perm_insertionSort pairGE metrics).mem_iff]
  refine ⟨List.perm_insertionSort pairGE metrics,
    List.sorted_insertionSort pairGE metrics,
    List.filter_sublist _, ?_, hmem, ?_, ?_, ?_⟩
  · exact List.Pairwise.sublist (List.filter_sublist _)
      (List.sorted_insertionSort pairGE metrics)
  · intro p hp hmem'
    exact absurd ((hmem p).mp hmem').2 (by rw [hp]; exact lt_irrefl _)
  · intro label m h
    rw [format_metric, if_neg]
    rw [h]
    exact lt_irrefl _
  · intro label m h
    rw [format_metric, if_pos]
    rw [h, HIGHLIGHT_THRESHOLD]
    norm_num

/-- Witness for C2: in a two-snapshot list, the snapshot with factor
exactly `2.3` is not highlighted (and renders unemphasized), the snapshot
with factor `2.31` is highlighted (and renders with the warning
marker). -/
theorem C2_scorer_threshold_witness :
    (⟨"AAAUSDT", some ⟨23 / 10, 0, 0, none⟩, none, none⟩ : PairSnapshot) ∉
      (find_top_imbalances
        [⟨"AAAUSDT", some ⟨23 / 10, 0, 0, none⟩, none, none⟩,
         ⟨"BBBUSDT", some ⟨231 / 100, 0, 0, none⟩, none, none⟩] 10).2 ∧
    (⟨"BBBUSDT", some ⟨231 / 100, 0, 0, none⟩, none, none⟩ : PairSnapshot) ∈
      (find_top_imbalances
        [⟨"AAAUSDT", some ⟨23 / 10, 0, 0, none⟩, none, none⟩,
         ⟨"BBBUSDT", some ⟨231 / 100, 0, 0, none⟩, none, none⟩] 10).2 ∧
    format_metric "Accounts 1d" (some ⟨23 / 10, 0, 0, none⟩) =
      metric_content "Accounts 1d" ⟨23 / 10, 0, 0, none⟩ ∧
    format_metric "Accounts 1d" (some ⟨231 / 100, 0, 0, none⟩) =
      "⚠️ <b>" ++ metric_content "Accounts 1d" ⟨231 / 100, 0, 0, none⟩ ++ "</b>" := by
  have h23 : pair_max_imbalance
      (⟨"AAAUSDT", some ⟨23 / 10, 0, 0, none⟩, none, none⟩ : PairSnapshot) =
      HIGHLIGHT_THRESHOLD := by
    rw [pair_max_imbalance, HIGHLIGHT_THRESHOLD]
    norm_num [imbalance_value, imbalance_value_raw, Metric.raw]
  have h231 : pair_max_imbalance
      (⟨"BBBUSDT", some ⟨231 / 100, 0, 0, none⟩, none, none⟩ : PairSnapshot) =
      231 / 100 := by
    rw [pair_max_imbalance]
    norm_num [imbalance_value, imbalance_value_raw, Metric.raw]
  have hval23 : imbalance_value (some ⟨23 / 10, 0, 0, none⟩) = HIGHLIGHT_THRESHOLD := by
    rw [HIGHLIGHT_THRESHOLD]
    norm_num [imbalance_value, imbalance_value_raw, Metric.raw]
  have hval231 : imbalance_value (some ⟨231 / 100, 0, 0, none⟩) = 231 / 100 := by
    norm_num [imbalance_value, imbalance_value_raw, Metric.raw]
  refine ⟨(C2_scorer_threshold _ 10).2.2.2.2.2.1 _ h23, ?_, ?_, ?_⟩
  · refine ((C2_scorer_threshold _ 10).2.2.2.2.1 _).mpr ⟨by simp, ?_⟩
    rw [h231, HIGHLIGHT_THRESHOLD]
    norm_num
  · exact (C2_scorer_threshold [] 0).2.2.2.2.2.2.1 "Accounts 1d" _ hval23
  · exact (C2_scorer_threshold [] 0).2.2.2.2.2.2.2 "Accounts 1d" _ hval231

/-- C7: the symbol selector returns at most `limit` symbols, each drawn
from the perpetual/USDT/trading set; the scored list is stable-sorted
descending by quote volume (a permutation of the scored tickers); a
ticker with a non-numeric volume is skipped without failing the call; and
on the three-ticker example with volumes 500/1500/1000 and `limit = 2`
the result is `["B", "C"]`. -/
theorem C7_symbol_selector :
    (∀ (data : List ExchangeSymbolInfo) (tickers : List Ticker) (limit : ℕ),
      (list_top_volume_usdt_perpetual data tickers limit).length ≤ limit ∧
      List.Sorted volGE
        (List.insertionSort volGE
          (score_tickers (list_usdt_perpetual_symbols data) tickers)) ∧
      List.Perm
        (List.insertionSort volGE
          (score_tickers (list_usdt_perpetual_symbols data) tickers))
        (score_tickers (list_usdt_perpetual_symbols data) tickers) ∧
      (∀ s, s ∈ list_top_volume_usdt_perpetual data tickers limit →
        s ∈ list_usdt_perpetual_symbols data)) ∧
    (∀ (allowed : List String) (pre post : List Ticker) (t : Ticker),
      ticker_quote_volume t.quoteVolume = none →
      score_tickers allowed (pre ++ t :: post) = score_tickers allowed (pre ++ post)) ∧
    list_top_volume_usdt_perpetual
      [⟨some "PERPETUAL", some "USDT", some "TRADING", some "A"⟩,
       ⟨some "PERPETUAL", some "USDT", some "TRADING", some "B"⟩,
       ⟨some "PERPETUAL", some "USDT", some "TRADING", some "C"⟩]
      [⟨some "A", RatioField.num 500⟩, ⟨some "B", RatioField.num 1500⟩,
       ⟨some "C", RatioField.num 1000⟩] 2 = ["B", "C"] := by
  refine ⟨?_, ?_, by decide⟩
  · intro data tickers limit
    refine ⟨?_, List.sorted_insertionSort volGE _, List.perm_insertionSort volGE _, ?_⟩
    · calc (list_top_volume_usdt_perpetual data tickers limit).length
          = ((List.insertionSort volGE
              (score_tickers (list_usdt_perpetual_symbols data) tickers)).take
                limit).length := by rw [list_top_volume_usdt_perpetual, List.length_map]
        _ ≤ limit := by rw [List.length_take]; exact min_le_left _ _
    · intro s hs
      rw [list_top_volume_usdt_perpetual] at hs
      rcases List.mem_map.mp hs with ⟨pair, hmem, rfl⟩
      have h1 : pair ∈ List.insertionSort volGE
          (score_tickers (list_usdt_perpetual_symbols data) tickers) :=
        (List.take_subset _ _) hmem
      have h2 : pair ∈ score_tickers (list_usdt_perpetual_symbols data) tickers :=
        (List.perm_insertionSort volGE _).mem_iff.mp h1
      rcases List.mem_filterMap.mp h2 with ⟨t, _, hf⟩
      by_cases hcond : (t.symbol.getD "") ∈ list_usdt_perpetual_symbols data
      · rw [if_pos hcond] at hf
        rcases Option.map_eq_some'.mp hf with ⟨vol, _, hpair⟩
        have : pair.1 = t.symbol.getD "" := by rw [← hpair]
        rw [this]
        exact hcond
      · rw [if_neg hcond] at hf
        exact absurd hf (Option.noConfusion)
  · intro allowed pre post t ht
    rw [score_tickers, score_tickers, List.filterMap_append, List.filterMap_append,
      List.filterMap_cons]
    have : (if (t.symbol.getD "") ∈ allowed then
        (ticker_quote_volume t.quoteVolume).map
          (fun vol => (t.symbol.getD "", vol)) else none) = none := by
      rw [ht]
      simp
    rw [this]

/-- Witness for C7: a ticker with a non-numeric volume is skipped, and a
symbol returned by the concrete three-ticker example is in the allowed
set. -/
theorem C7_symbol_selector_witness :
    score_tickers ["A"] ([] ++ ⟨some "A", RatioField.nonNumeric⟩ :: []) =
      score_tickers ["A"] ([] ++ []) ∧
    "B" ∈ list_usdt_perpetual_symbols
      [⟨some "PERPETUAL", some "USDT", some "TRADING", some "A"⟩,
       ⟨some "PERPETUAL", some "USDT", some "TRADING", some "B"⟩,
       ⟨some "PERPETUAL", some "USDT", some "TRADING", some "C"⟩] := by
  refine ⟨C7_symbol_selector.2.1 ["A"] [] [] ⟨some "A", RatioField.nonNumeric⟩ rfl, ?_⟩
  exact (C7_symbol_selector.1
      [⟨some "PERPETUAL", some "USDT", some "TRADING", some "A"⟩,
       ⟨some "PERPETUAL", some "USDT", some "TRADING", some "B"⟩,
       ⟨some "PERPETUAL", some "USDT", some "TRADING", some "C"⟩]
      [⟨some "A", RatioField.num 500⟩, ⟨some "B", RatioField.num 1500⟩,
       ⟨some "C", RatioField.num 1000⟩] 2).2.2.2 "B"
    (by rw [C7_symbol_selector.2.2]; decide)

/-- Characterization of `collect_metrics`: the results are the snapshots
of the fully successful symbols in input order, the errors are the
labeled messages of the failing symbols in input order, and together they
partition the input. -/
theorem collect_metrics_spec (client : BinanceCalls) :
    ∀ symbols : List String,
      (collect_metrics client symbols).1 = symbols.filterMap (snapshot_of client) ∧
      (collect_metrics client symbols).2 =
        (symbols.filter (fun s => ! symbol_ok client s)).map (symbol_error client) ∧
      (collect_metrics client symbols).1.map PairSnapshot.symbol =
        symbols.filter (fun s => symbol_ok client s) ∧
      (collect_metrics client symbols).1.length +
        (collect_metrics client symbols).2.length = symbols.length
  | [] => ⟨rfl, rfl, rfl, rfl⟩
  | s :: rest => by
    obtain ⟨ih1, ih2, ih3, ih4⟩ := collect_metrics_spec client rest
    cases ha : client.top_trader_accounts s with
    | error exc =>
      have hok : symbol_ok client s = false := by
        simp [symbol_ok, ha, Except.isOk, Except.toBool]
      have hcc : collect_metrics client (s :: rest) =
          ((collect_metrics client rest).1,
            (s ++ ": " ++ exc) :: (collect_metrics client rest).2) := by
        simp [collect_metrics, ha]
      have hsnap : snapshot_of client s = none := by simp [snapshot_of, ha]
      have herr : symbol_error client s = s ++ ": " ++ exc := by
        simp [symbol_error, ha]
      refine ⟨?_, ?_, ?_, ?_⟩
      · rw [hcc]; simp [List.filterMap_cons, hsnap, ih1]
      · rw [hcc]; simp [List.filter_cons, hok, herr, ih2]
      · rw [hcc]; simp [List.filter_cons, hok, ih3]
      · rw [hcc]; simp only [List.length_cons]; omega
    | ok accounts =>
      cases hp : client.top_trader_positions s with
      | error exc =>
        have hok : symbol_ok client s = false := by
          simp [symbol_ok, ha, hp, Except.isOk, Except.toBool]
        have hcc : collect_metrics client (s :: rest) =
            ((collect_metrics client rest).1,
              (s ++ ": " ++ exc) :: (collect_metrics client rest).2) := by
          simp [collect_metrics, ha, hp]
        have hsnap : snapshot_of client s = none := by simp [snapshot_of, ha, hp]
        have herr : symbol_error client s = s ++ ": " ++ exc := by
          simp [symbol_error, ha, hp]
        refine ⟨?_, ?_, ?_, ?_⟩
        · rw [hcc]; simp [List.filterMap_cons, hsnap, ih1]
        · rw [hcc]; simp [List.filter_cons, hok, herr, ih2]
        · rw [hcc]; simp [List.filter_cons, hok, ih3]
        · rw [hcc]; simp only [List.length_cons]; omega
      | ok positions =>
        cases hg : client.global_long_short s with
        | error exc =>
          have hok : symbol_ok client s = false := by
            simp [symbol_ok, ha, hp, hg, Except.isOk, Except.toBool]
          have hcc : collect_metrics client (s :: rest) =
              ((collect_metrics client rest).1,
                (s ++ ": " ++ exc) :: (collect_metrics client rest).2) := by
            simp [collect_metrics, ha, hp, hg]
          have hsnap : snapshot_of client s = none := by
            simp [snapshot_of, ha, hp, hg]
          have herr : symbol_error client s = s ++ ": " ++ exc := by
            simp [symbol_error, ha, hp, hg]
          refine ⟨?_, ?_, ?_, ?_⟩
          · rw [hcc]; simp [List.filterMap_cons, hsnap, ih1]
          · rw [hcc]; simp [List.filter_cons, hok, herr, ih2]
          · rw [hcc]; simp [List.filter_cons, hok, ih3]
          · rw [hcc]; simp only [List.length_cons]; omega
        | ok g =>
          have hok : symbol_ok client s = true := by
            simp [symbol_ok, ha, hp, hg, Except.isOk, Except.toBool]
          have hcc : collect_metrics client (s :: rest) =
              (⟨s, some accounts, some positions, some g⟩ ::
                (collect_metrics client rest).1, (collect_metrics client rest).2) := by
            simp [collect_metrics, ha, hp, hg]
          have hsnap : snapshot_of client s =
              some ⟨s, some accounts, some positions, some g⟩ := by
            simp [snapshot_of, ha, hp, hg]
          refine ⟨?_, ?_, ?_, ?_⟩
          · rw [hcc]; simp [List.filterMap_cons, hsnap, ih1]
          · rw [hcc]; simp [List.filter_cons, hok, ih2]
          · rw [hcc]; simp [List.filter_cons, hok, ih3]
          · rw [hcc]; simp only [List.length_cons]; omega

/-- C6 counterexample: for a symbol whose accounts call fails while the
positions and global calls succeed, `collect_metrics` produces NO pair
snapshot at all (the partial data is discarded), recording only the
labeled error — contradicting the claim that a partially populated
snapshot is still produced. -/
theorem C6_partial_metrics_counterexample :
    (partialClient.top_trader_positions "BTCUSDT").isOk = true ∧
    (partialClient.global_long_short "BTCUSDT").isOk = true ∧
    (partialClient.top_trader_accounts "BTCUSDT").isOk = false ∧
    (collect_metrics partialClient ["BTCUSDT"]).1 = [] ∧
    (collect_metrics partialClient ["BTCUSDT"]).2 = ["BTCUSDT: HTTP 451"] :=
  ⟨rfl, rfl, rfl, rfl, rfl⟩

/-- C6 amended: metric collection is all-or-nothing per symbol — every
snapshot that is produced has all three metrics populated, and a symbol
with any failing call contributes no snapshot, only its labeled error
string. -/
theorem C6_all_or_nothing :
    ∀ (client : BinanceCalls) (symbols : List String),
      (∀ p ∈ (collect_metrics client symbols).1,
        p.accounts.isSome ∧ p.positions.isSome ∧ p.global.isSome) ∧
      (∀ s ∈ symbols, symbol_ok client s = false →
        (∀ p ∈ (collect_metrics client symbols).1, p.symbol ≠ s) ∧
        symbol_error client s ∈ (collect_metrics client symbols).2) := by
  intro client symbols
  obtain ⟨h1, h2, h3, _⟩ := collect_metrics_spec client symbols
  constructor
  · intro p hp
    rw [h1] at hp
    rcases List.mem_filterMap.mp hp with ⟨s, _, hsnap⟩
    rw [snapshot_of] at hsnap
    cases ha : client.top_trader_accounts s <;> rw [ha] at hsnap <;>
      cases hpo : client.top_trader_positions s <;> rw [hpo] at hsnap <;>
        cases hg : client.global_long_short s <;> rw [hg] at hsnap <;>
          simp at hsnap
    obtain ⟨_, rfl⟩ := hsnap
    exact ⟨rfl, rfl, rfl⟩
  · intro s hs hfail
    constructor
    · intro p hp heq
      have : p.symbol ∈ (collect_metrics client symbols).1.map PairSnapshot.symbol :=
        List.mem_map.mpr ⟨p, hp, rfl⟩
      rw [h3, List.mem_filter] at this
      rw [heq, hfail] at this
      exact absurd this.2 (by simp)
    · rw [h2]
      exact List.mem_map.mpr ⟨s, List.mem_filter.mpr ⟨hs, by rw [hfail]; rfl⟩, rfl⟩

/-- Witness for C6 (amended) at the concrete failing client: the symbol
with a failing accounts call yields no snapshot and its labeled error is
recorded. -/
theorem C6_all_or_nothing_witness :
    (∀ p ∈ (collect_metrics partialClient ["BTCUSDT"]).1, p.symbol ≠ "BTCUSDT") ∧
    symbol_error partialClient "BTCUSDT" ∈
      (collect_metrics partialClient ["BTCUSDT"]).2 :=
  (C6_all_or_nothing partialClient ["BTCUSDT"]).2 "BTCUSDT" (by simp) rfl

/-- C10: `collect_metrics` is a total partition of its input — the
snapshot symbols are exactly the fully successful input symbols in input
order, the errors are exactly the labeled messages of the failing input
symbols in input order (each prefixed with its symbol), and the two
output lengths sum to the input length. -/
theorem C10_collect_metrics_partition :
    ∀ (client : BinanceCalls) (symbols : List String),
      (collect_metrics client symbols).1.map PairSnapshot.symbol =
        symbols.filter (fun s => symbol_ok client s) ∧
      (collect_metrics client symbols).2 =
        (symbols.filter (fun s => ! symbol_ok client s)).map (symbol_error client) ∧
      (collect_metrics client symbols).1.length +
        (collect_metrics client symbols).2.length = symbols.length ∧
      (∀ e ∈ (collect_metrics client symbols).2,
        ∃ s ∈ symbols, ∃ msg, e = s ++ ": " ++ msg) := by
  intro client symbols
  obtain ⟨_, h2, h3, h4⟩ := collect_metrics_spec client symbols
  refine ⟨h3, h2, h4, ?_⟩
  intro e he
  rw [h2] at he
  rcases List.mem_map.mp he with ⟨s, hs, rfl⟩
  refine ⟨s, (List.mem_filter.mp hs).1, ?_⟩
  rw [symbol_error]
  cases ha : client.top_trader_accounts s
  · exact ⟨_, rfl⟩
  · cases hp : client.top_trader_positions s
    · exact ⟨_, rfl⟩
    · cases hg : client.global_long_short s
      · exact ⟨_, rfl⟩
      · exact ⟨"", by simp⟩

/-- If the combination loop raises, every tried combination failed. -/
theorem run_combos_err_all_fail {α : Type}
    (oracle : String → Option String → ℕ → Except String α)
    (path : String) (st : ClientState) (cs : List Combo) :
    ∀ (last e : Option String),
      run_combos oracle path st cs last = ReqOutcome.err e →
      ∀ c ∈ cs, ∃ exc, oracle (c.base ++ path) c.proxy c.attempt = Except.error exc := by
  induction cs with
  | nil => intro last e _ c hc; exact absurd hc (List.not_mem_nil c)
  | cons c0 rest ih =>
    intro last e h c hc
    cases ho : oracle (c0.base ++ path) c0.proxy c0.attempt with
    | ok d =>
      simp only [run_combos, ho] at h
      exact absurd h (by simp)
    | error exc =>
      simp only [run_combos, ho] at h
      rcases List.mem_cons.mp hc with rfl | hc2
      · exact ⟨exc, ho⟩
      · exact ih _ e h c hc2

/-- If every combination fails, the loop raises the error message built
from the LAST combination's failure. -/
theorem run_combos_last_error {α : Type}
    (oracle : String → Option String → ℕ → Except String α)
    (path : String) (st : ClientState) (cs : List Combo) :
    ∀ (last : Option String),
      (∀ c ∈ cs, ∃ exc, oracle (c.base ++ path) c.proxy c.attempt = Except.error exc) →
      ∀ lc exc, cs.getLast? = some lc →
        oracle (lc.base ++ path) lc.proxy lc.attempt = Except.error exc →
        run_combos oracle path st cs last =
          ReqOutcome.err (some (attempt_error (lc.base ++ path) lc.attempt lc.proxy exc)) := by
  induction cs with
  | nil => intro last _ lc exc hlast _; simp at hlast
  | cons c0 rest ih =>
    intro last hall lc exc hlast hexc
    obtain ⟨exc0, ho⟩ := hall c0 (List.mem_cons_self c0 rest)
    simp only [run_combos, ho]
    cases rest with
    | nil =>
      have hlc : lc = c0 := by simpa using hlast.symm
      subst hlc
      have : exc0 = exc := by
        have := ho.symm.trans hexc
        exact Except.error.inj this
      subst this
      simp [run_combos]
    | cons c1 rest2 =>
      have hlast2 : (c1 :: rest2).getLast? = some lc := by
        rwa [List.getLast?_cons_cons] at hlast
      exact ih _ (fun c2 h2 => hall c2 (List.mem_cons_of_mem c0 h2)) lc exc hlast2 hexc

/-- The first fully successful combination short-circuits the loop and
promotes the endpoint (and the proxy, when one was used). -/
theorem run_combos_success {α : Type}
    (oracle : String → Option String → ℕ → Except String α)
    (path : String) (st : ClientState) :
    ∀ (pre : List Combo) (c : Combo) (post : List Combo) (d : α) (last : Option String),
      (∀ c2 ∈ pre, ∃ exc, oracle (c2.base ++ path) c2.proxy c2.attempt = Except.error exc) →
      oracle (c.base ++ path) c.proxy c.attempt = Except.ok d →
      run_combos oracle path st (pre ++ c :: post) last =
        ReqOutcome.ok d
          { st with
            preferred_base := some c.base,
            preferred_proxy := if c.proxy.isSome then c.proxy else st.preferred_proxy } := by
  intro pre
  induction pre with
  | nil => intro c post d last _ hc; simp only [List.nil_append, run_combos, hc]
  | cons c0 rest ih =>
    intro c post d last hall hc
    obtain ⟨exc0, ho⟩ := hall c0 (List.mem_cons_self c0 rest)
    simp only [List.cons_append, run_combos, ho]
    exact ih c post d _ (fun c2 h2 => hall c2 (List.mem_cons_of_mem c0 h2)) hc

/-- C4: `_request` fails only after every (endpoint × proxy × attempt)
combination has failed, in which case the most recent (last tried)
failure is the one surfaced; the first fully successful attempt
short-circuits, returns the parsed body and updates the preferred
endpoint/proxy; and with a nonempty endpoint pool at least one
combination is always tried. -/
theorem C4_request_exhaustion :
    ∀ (α : Type) (st : ClientState)
      (oracle : String → Option String → ℕ → Except String α)
      (ma : ℕ) (path : String),
      (∀ e, request st oracle ma path = ReqOutcome.err e →
        ∀ c ∈ combos st (max 1 ma), ∃ exc,
          oracle (c.base ++ path) c.proxy c.attempt = Except.error exc) ∧
      (∀ lc exc,
        (∀ c ∈ combos st (max 1 ma), ∃ exc2,
          oracle (c.base ++ path) c.proxy c.attempt = Except.error exc2) →
        (combos st (max 1 ma)).getLast? = some lc →
        oracle (lc.base ++ path) lc.proxy lc.attempt = Except.error exc →
        request st oracle ma path =
          ReqOutcome.err (some (attempt_error (lc.base ++ path) lc.attempt lc.proxy exc))) ∧
      (∀ (pre : List Combo) (c : Combo) (post : List Combo) (d : α),
        combos st (max 1 ma) = pre ++ c :: post →
        (∀ c2 ∈ pre, ∃ exc, oracle (c2.base ++ path) c2.proxy c2.attempt = Except.error exc) →
        oracle (c.base ++ path) c.proxy c.attempt = Except.ok d →
        request st oracle ma path =
          ReqOutcome.ok d
            { st with
              preferred_base := some c.base,
              preferred_proxy := if c.proxy.isSome then c.proxy else st.preferred_proxy }) ∧
      (st.base_urls ≠ [] → combos st (max 1 ma) ≠ []) := by
  intro α st oracle ma path
  refine ⟨?_, ?_, ?_, ?_⟩
  · intro e h
    exact run_combos_err_all_fail oracle path st _ none e h
  · intro lc exc hall hlast hexc
    exact run_combos_last_error oracle path st _ none hall lc exc hlast hexc
  · intro pre c post d hdec hall hc
    rw [request, hdec]
    exact run_combos_success oracle path st pre c post d none hall hc
  · intro hb
    have hbases : ∃ b, b ∈ ordered_bases st := by
      rw [ordered_bases]
      cases st.preferred_base with
      | none => exact List.exists_mem_of_ne_nil _ hb
      | some pb =>
        by_cases hmem : pb ∈ st.base_urls
        · exact ⟨pb, by simp [hmem]⟩
        · simpa [hmem] using List.exists_mem_of_ne_nil _ hb
    have hprox : ∃ p, p ∈ effective_proxies st := by
      rw [effective_proxies]
      cases st.preferred_proxy with
      | none => exact ⟨none, by simp [proxy_candidates]⟩
      | some pp => exact ⟨some pp, by simp⟩
    have hatt : (0 : ℕ) ∈ List.range (max 1 ma) :=
      List.mem_range.mpr (lt_of_lt_of_le one_pos (le_max_left 1 ma))
    obtain ⟨b, hb2⟩ := hbases
    obtain ⟨p, hp2⟩ := hprox
    intro hcon
    have hin : (⟨b, p, 0⟩ : Combo) ∈ combos st (max 1 ma) := by
      rw [combos]
      exact List.mem_flatMap.mpr
        ⟨b, hb2, List.mem_flatMap.mpr ⟨p, hp2, List.mem_map.mpr ⟨0, hatt, rfl⟩⟩⟩
    rw [hcon] at hin
    exact absurd hin (List.not_mem_nil _)

/-- Witness for C4 on the two-endpoint oracle: `E1` (tried first) fails,
`E2` succeeds, so `_request` returns `E2`'s body and promotes `E2`. -/
theorem C4_request_exhaustion_witness :
    request ⟨["E1", "E2"], [], none, none⟩ oracleE1E2 1 "/x" =
      ReqOutcome.ok 42 ⟨["E1", "E2"], [], some "E2", none⟩ :=
  (C4_request_exhaustion ℕ ⟨["E1", "E2"], [], none, none⟩ oracleE1E2 1 "/x").2.2.1
    [⟨"E1", none, 0⟩] ⟨"E2", none, 0⟩ [] 42 rfl
    (by
      intro c2 h2
      rcases List.mem_singleton.mp h2 with rfl
      exact ⟨"down", rfl⟩)
    rfl

/-- C5: the preferred endpoint, when it is in the pool, moves to the
front of the base ordering without removing any pool entry (a permutation
when the pool has no duplicates); the preferred proxy moves to the front
of the proxy ordering without removing any candidate; and in the concrete
two-endpoint run where `E1` always fails and `E2` succeeds, the call
returns `E2`'s result and the next call tries `E2` first. -/
theorem C5_preferred_promotion :
    (∀ st : ClientState, ∀ b ∈ st.base_urls, b ∈ ordered_bases st) ∧
    (∀ st : ClientState, ∀ pb, st.preferred_base = some pb → pb ∈ st.base_urls →
      (ordered_bases st).head? = some pb ∧
      (st.base_urls.Nodup → List.Perm (ordered_bases st) st.base_urls)) ∧
    (∀ st : ClientState, ∀ p ∈ proxy_candidates st, p ∈ effective_proxies st) ∧
    (∀ st : ClientState, ∀ pp, st.preferred_proxy = some pp →
      (effective_proxies st).head? = some (some pp)) ∧
    (request ⟨["E1", "E2"], [], none, none⟩ oracleE1E2 1 "/x" =
        ReqOutcome.ok 42 ⟨["E1", "E2"], [], some "E2", none⟩ ∧
      ordered_bases ⟨["E1", "E2"], [], some "E2", none⟩ = ["E2", "E1"] ∧
      (combos ⟨["E1", "E2"], [], some "E2", none⟩ 1).head? =
        some ⟨"E2", none, 0⟩) := by
  refine ⟨?_, ?_, ?_, ?_, by decide, by decide, by decide⟩
  · intro st b hb
    cases hpb : st.preferred_base with
    | none => simpa only [ordered_bases, hpb] using hb
    | some pb =>
      simp only [ordered_bases, hpb]
      by_cases hmem : pb ∈ st.base_urls
      · rw [if_pos hmem]
        by_cases hbp : b = pb
        · exact hbp ▸ List.mem_cons_self pb _
        · exact List.mem_cons_of_mem pb
            (List.mem_filter.mpr ⟨hb, by simpa [bne_iff_ne] using hbp⟩)
      · rw [if_neg hmem]; exact hb
  · intro st pb hpb hmem
    constructor
    · simp only [ordered_bases, hpb, if_pos hmem]
      rfl
    · intro hnd
      simp only [ordered_bases, hpb, if_pos hmem]
      have herase : st.base_urls.filter (fun b => b != pb) = st.base_urls.erase pb :=
        (List.Nodup.erase_eq_filter hnd pb).symm
      rw [herase]
      exact (List.perm_cons_erase hmem).symm
  · intro st p hp
    cases hpp : st.preferred_proxy with
    | none => simpa only [effective_proxies, hpp] using hp
    | some pp =>
      simp only [effective_proxies, hpp]
      by_cases hppq : p = some pp
      · exact hppq ▸ List.mem_cons_self (some pp) _
      · exact List.mem_cons_of_mem (some pp)
          (List.mem_filter.mpr ⟨hp, by simpa [bne_iff_ne] using hppq⟩)
  · intro st pp hpp
    simp only [effective_proxies, hpp]
    rfl

/-- Witness for C5: promotion and retention at a concrete state whose
preferred base `E2` sits in the pool `["E1", "E2"]` and whose preferred
proxy is `P1`. -/
theorem C5_preferred_promotion_witness :
    "E1" ∈ ordered_bases ⟨["E1", "E2"], [], some "E2", none⟩ ∧
    (ordered_bases ⟨["E1", "E2"], [], some "E2", none⟩).head? = some "E2" ∧
    List.Perm (ordered_bases ⟨["E1", "E2"], [], some "E2", none⟩) ["E1", "E2"] ∧
    (effective_proxies ⟨[], ["P2"], none, some "P1"⟩).head? = some (some "P1") := by
  refine ⟨C5_preferred_promotion.1 ⟨["E1", "E2"], [], some "E2", none⟩ "E1" (by decide),
    (C5_preferred_promotion.2.1 ⟨["E1", "E2"], [], some "E2", none⟩ "E2" rfl
      (by decide)).1,
    (C5_preferred_promotion.2.1 ⟨["E1", "E2"], [], some "E2", none⟩ "E2" rfl
      (by decide)).2 (by decide),
    C5_preferred_promotion.2.2.2.1 ⟨[], ["P2"], none, some "P1"⟩ "P1" rfl⟩

/-- `dedup_first` only depends on the membership of the seen set. -/
theorem dedup_first_congr :
    ∀ (ls s1 s2 : List String), (∀ x, x ∈ s1 ↔ x ∈ s2) →
      dedup_first s1 ls = dedup_first s2 ls := by
  intro ls
  induction ls with
  | nil => intro s1 s2 _; rfl
  | cons x xs ih =>
    intro s1 s2 h
    by_cases hx : x ∈ s1
    · rw [dedup_first, dedup_first, if_pos hx, if_pos ((h x).mp hx)]
      exact ih s1 s2 h
    · rw [dedup_first, dedup_first, if_neg hx, if_neg (fun hc => hx ((h x).mpr hc))]
      refine congrArg (x :: ·) (ih (x :: s1) (x :: s2) ?_)
      intro y
      simp only [List.mem_cons, h y]

/-- `dedup_first` distributes over append, the second part deduplicated
against any set whose membership is "seen or in the first part". -/
theorem dedup_first_append :
    ∀ (l1 l2 s1 s2 : List String),
      (∀ x, x ∈ s2 ↔ x ∈ s1 ∨ x ∈ l1) →
      dedup_first s1 (l1 ++ l2) = dedup_first s1 l1 ++ dedup_first s2 l2 := by
  intro l1
  induction l1 with
  | nil =>
    intro l2 s1 s2 h
    simp only [List.nil_append, dedup_first]
    exact dedup_first_congr l2 s1 s2 (fun x => by simpa using (h x).symm)
  | cons p l1 ih =>
    intro l2 s1 s2 h
    by_cases hp : p ∈ s1
    · rw [List.cons_append, dedup_first, if_pos hp, dedup_first, if_pos hp]
      refine ih l2 s1 s2 ?_
      intro x
      rw [h x, List.mem_cons]
      constructor
      · rintro (hs | rfl | hl)
        · exact Or.inl hs
        · exact Or.inl hp
        · exact Or.inr hl
      · rintro (hs | hl)
        · exact Or.inl hs
        · exact Or.inr (Or.inr hl)
    · rw [List.cons_append, dedup_first, if_neg hp, dedup_first, if_neg hp,
        List.cons_append]
      refine congrArg (p :: ·) (ih l2 (p :: s1) s2 ?_)
      intro x
      rw [h x, List.mem_cons, List.mem_cons]
      tauto

/-- Entries produced by `dedup_first` were not in the seen set. -/
theorem dedup_first_mem_not_seen :
    ∀ (ls seen : List String), ∀ x ∈ dedup_first seen ls, x ∉ seen := by
  intro ls
  induction ls with
  | nil => intro seen x hx; simp [dedup_first] at hx
  | cons p rest ih =>
    intro seen x hx
    by_cases hp : p ∈ seen
    · rw [dedup_first, if_pos hp] at hx
      exact ih seen x hx
    · rw [dedup_first, if_neg hp] at hx
      rcases List.mem_cons.mp hx with rfl | hx2
      · exact hp
      · intro hs
        exact ih (p :: seen) x hx2 (List.mem_cons_of_mem p hs)

/-- `dedup_first` produces no duplicates. -/
theorem dedup_first_nodup :
    ∀ (ls seen : List String), (dedup_first seen ls).Nodup := by
  intro ls
  induction ls with
  | nil => intro seen; simp [dedup_first]
  | cons p rest ih =>
    intro seen
    by_cases hp : p ∈ seen
    · rw [dedup_first, if_pos hp]; exact ih seen
    · rw [dedup_first, if_neg hp]
      refine List.nodup_cons.mpr ⟨?_, ih (p :: seen)⟩
      intro hmem
      exact dedup_first_mem_not_seen rest (p :: seen) p hmem (List.mem_cons_self p seen)

/-- Characterization of the inner dedup/normalize loop: it appends the
normalized first occurrences to the accumulator, and the new seen set's
membership is "previously seen or in the processed lines". -/
theorem add_candidates_spec :
    ∀ (ls seen raw : List String),
      (add_candidates ls seen raw).2 =
        raw ++ (dedup_first seen ls).map (fun p => "http://" ++ p) ∧
      (∀ q, q ∈ (add_candidates ls seen raw).1 ↔ q ∈ seen ∨ q ∈ ls) := by
  intro ls
  induction ls with
  | nil =>
    intro seen raw
    exact ⟨by simp [add_candidates, dedup_first], by simp [add_candidates]⟩
  | cons p rest ih =>
    intro seen raw
    by_cases hp : p ∈ seen
    · rw [add_candidates, if_pos hp]
      refine ⟨?_, ?_⟩
      · rw [(ih seen raw).1, dedup_first, if_pos hp]
      · intro q
        rw [(ih seen raw).2 q, List.mem_cons]
        constructor
        · rintro (hs | hr)
          · exact Or.inl hs
          · exact Or.inr (Or.inr hr)
        · rintro (hs | rfl | hr)
          · exact Or.inl hs
          · exact Or.inl hp
          · exact Or.inr hr
    · rw [add_candidates, if_neg hp]
      refine ⟨?_, ?_⟩
      · rw [(ih (p :: seen) (raw ++ ["http://" ++ p])).1, dedup_first, if_neg hp,
          List.map_cons, List.append_assoc]
        rfl
      · intro q
        rw [(ih (p :: seen) (raw ++ ["http://" ++ p])).2 q, List.mem_cons,
          List.mem_cons]
        tauto

/-- Characterization of the source loop: the accumulated proxies are the
normalized first-seen deduplication of the discovery stream, appended to
the accumulator in discovery order. -/
theorem load_sources_spec (fetch : String → Except String String)
    (sources : String → Option String) :
    ∀ (types seen raw : List String),
      (load_sources fetch sources types seen raw).2 =
        raw ++ (dedup_first seen (discovered_lines fetch sources types)).map
          (fun p => "http://" ++ p) ∧
      (∀ q, q ∈ (load_sources fetch sources types seen raw).1 ↔
        q ∈ seen ∨ q ∈ discovered_lines fetch sources types) := by
  intro types
  induction types with
  | nil =>
    intro seen raw
    exact ⟨by simp [load_sources, discovered_lines, dedup_first],
      by simp [load_sources, discovered_lines]⟩
  | cons t rest ih =>
    intro seen raw
    cases hs : sources t with
    | none =>
      refine ⟨?_, ?_⟩
      · simpa only [load_sources, discovered_lines, hs] using (ih seen raw).1
      · intro q
        simpa only [load_sources, discovered_lines, hs] using (ih seen raw).2 q
    | some url =>
      cases hf : fetch url with
      | error e =>
        refine ⟨?_, ?_⟩
        · simpa only [load_sources, discovered_lines, hs, hf] using (ih seen raw).1
        · intro q
          simpa only [load_sources, discovered_lines, hs, hf] using (ih seen raw).2 q
      | ok body =>
        have hadd := add_candidates_spec (candidate_lines body) seen raw
        have ihh := ih (add_candidates (candidate_lines body) seen raw).1
          (add_candidates (candidate_lines body) seen raw).2
        refine ⟨?_, ?_⟩
        · calc (load_sources fetch sources (t :: rest) seen raw).2
              = (load_sources fetch sources rest
                  (add_candidates (candidate_lines body) seen raw).1
                  (add_candidates (candidate_lines body) seen raw).2).2 := by
                simp only [load_sources, hs, hf]
            _ = (add_candidates (candidate_lines body) seen raw).2 ++
                (dedup_first (add_candidates (candidate_lines body) seen raw).1
                  (discovered_lines fetch sources rest)).map
                  (fun p => "http://" ++ p) := ihh.1
            _ = raw ++ ((dedup_first seen (candidate_lines body)).map
                  (fun p => "http://" ++ p) ++
                (dedup_first (add_candidates (candidate_lines body) seen raw).1
                  (discovered_lines fetch sources rest)).map
                  (fun p => "http://" ++ p)) := by
                rw [hadd.1, List.append_assoc]
            _ = raw ++ (dedup_first seen (candidate_lines body ++
                  discovered_lines fetch sources rest)).map
                  (fun p => "http://" ++ p) := by
                rw [dedup_first_append (candidate_lines body)
                  (discovered_lines fetch sources rest) seen
                  (add_candidates (candidate_lines body) seen raw).1 hadd.2,
                  List.map_append]
            _ = raw ++ (dedup_first seen
                  (discovered_lines fetch sources (t :: rest))).map
                  (fun p => "http://" ++ p) := by
                simp only [discovered_lines, hs, hf]
        · intro q
          have hstep : (load_sources fetch sources (t :: rest) seen raw).1 =
              (load_sources fetch sources rest
                (add_candidates (candidate_lines body) seen raw).1
                (add_candidates (candidate_lines body) seen raw).2).1 := by
            simp only [load_sources, hs, hf]
          have hdisc : discovered_lines fetch sources (t :: rest) =
              candidate_lines body ++ discovered_lines fetch sources rest := by
            simp only [discovered_lines, hs, hf]
          rw [hstep, ihh.2 q, hadd.2 q, hdisc]
          simp only [List.mem_append]
          tauto

/-- When every fetch fails, the discovery stream is empty. -/
theorem discovered_lines_all_fail (fetch : String → Except String String)
    (sources : String → Option String)
    (h : ∀ u, ∃ e, fetch u = Except.error e) :
    ∀ types, discovered_lines fetch sources types = [] := by
  intro types
  induction types with
  | nil => rfl
  | cons t rest ih =>
    cases hs : sources t with
    | none => simpa only [discovered_lines, hs] using ih
    | some url =>
      rcases h url with ⟨e, he⟩
      simpa only [discovered_lines, hs, he] using ih

/-- Prefixing with `http://` is injective. -/
theorem http_prefix_injective :
    Function.Injective (fun p : String => "http://" ++ p) := by
  intro p q h
  have hd : ("http://" ++ p).data = ("http://" ++ q).data := congrArg String.data h
  rw [String.data_append, String.data_append] at hd
  exact String.ext (List.append_cancel_left hd)

/-- C8: the proxy loader returns the first-seen deduplication of the
discovery stream, normalized to `http://host:port` and truncated to
`limit` (so at most `limit` addresses, in discovery order and without
duplicates); a source whose lookup or fetch fails is skipped without
affecting the rest; and when every fetch fails the result is the empty
list — the loader never fails. -/
theorem C8_proxy_directory :
    ∀ (fetch : String → Except String String) (custom : Option String)
      (limit : ℕ) (types0 : List String),
      load_free_proxies fetch custom limit types0 =
        ((dedup_first [] (discovered_lines fetch (proxy_sources custom)
            (if types0 = [] then ["https"] else types0))).map
          (fun p => "http://" ++ p)).take limit ∧
      (load_free_proxies fetch custom limit types0).length ≤ limit ∧
      (load_free_proxies fetch custom limit types0).Nodup ∧
      (∀ (pre post : List String) (t : String) (seen raw : List String),
        (∀ url, proxy_sources custom t = some url →
          ∃ e, fetch url = Except.error e) →
        load_sources fetch (proxy_sources custom) (pre ++ t :: post) seen raw =
          load_sources fetch (proxy_sources custom) (pre ++ post) seen raw) ∧
      ((∀ u, ∃ e, fetch u = Except.error e) →
        load_free_proxies fetch custom limit types0 = []) := by
  intro fetch custom limit types0
  have hmain : load_free_proxies fetch custom limit types0 =
      ((dedup_first [] (discovered_lines fetch (proxy_sources custom)
          (if types0 = [] then ["https"] else types0))).map
        (fun p => "http://" ++ p)).take limit := by
    rw [load_free_proxies,
      (load_sources_spec fetch (proxy_sources custom) _ [] []).1,
      List.nil_append]
  refine ⟨hmain, ?_, ?_, ?_, ?_⟩
  · rw [hmain, List.length_take]
    exact min_le_left _ _
  · rw [hmain]
    exact List.Nodup.sublist (List.take_sublist _ _)
      (List.Nodup.map http_prefix_injective (dedup_first_nodup _ _))
  · intro pre post t seen raw h
    induction pre generalizing seen raw with
    | nil =>
      cases hs : proxy_sources custom t with
      | none => simp only [List.nil_append, load_sources, hs]
      | some url =>
        rcases h url hs with ⟨e, he⟩
        simp only [List.nil_append, load_sources, hs, he]
    | cons p pre2 ih =>
      simp only [List.cons_append]
      cases hsp : proxy_sources custom p with
      | none =>
        simp only [load_sources, hsp]
        exact ih seen raw
      | some url =>
        cases hfp : fetch url with
        | error e =>
          simp only [load_sources, hsp, hfp]
          exact ih seen raw
        | ok body =>
          simp only [load_sources, hsp, hfp]
          exact ih _ _
  · intro hall
    rw [hmain, discovered_lines_all_fail fetch (proxy_sources custom) hall]
    simp [dedup_first]

/-- Witness for C8: with the always-failing fetch, the single `https`
source is skipped and the loader returns the empty list. -/
theorem C8_proxy_directory_witness :
    load_sources fetchFail (proxy_sources none) ([] ++ "https" :: []) [] [] =
      load_sources fetchFail (proxy_sources none) ([] ++ []) [] [] ∧
    load_free_proxies fetchFail none 20 ["https"] = [] := by
  refine ⟨(C8_proxy_directory fetchFail none 20 ["https"]).2.2.2.1 [] [] "https" [] []
      (fun _ _ => ⟨"timeout", rfl⟩),
    (C8_proxy_directory fetchFail none 20 ["https"]).2.2.2.2
      (fun _ => ⟨"timeout", rfl⟩)⟩

/-- Witness for C10 at a concrete one-symbol run whose collection fails:
the output lengths sum to the input length and the error string is
prefixed with its symbol. -/
theorem C10_collect_metrics_partition_witness :
    (collect_metrics partialClient ["ETHUSDT"]).1.length +
      (collect_metrics partialClient ["ETHUSDT"]).2.length = 1 ∧
    (∃ s ∈ ["ETHUSDT"], ∃ msg, "ETHUSDT: HTTP 451" = s ++ ": " ++ msg) := by
  refine ⟨(C10_collect_metrics_partition partialClient ["ETHUSDT"]).2.2.1, ?_⟩
  exact (C10_collect_metrics_partition partialClient ["ETHUSDT"]).2.2.2
    "ETHUSDT: HTTP 451" (by simp [collect_metrics, partialClient])

/-- Concatenating the batches restores the original list. -/
theorem chunks_aux_flatten {α : Type} (bs : ℕ) (hbs : 0 < bs) :
    ∀ (fuel : ℕ) (l : List α), l.length ≤ fuel →
      (chunks_aux bs fuel l).flatten = l := by
  intro fuel
  induction fuel with
  | zero =>
    intro l hl
    have hnil : l = [] := List.eq_nil_of_length_eq_zero (Nat.le_zero.mp hl)
    subst hnil
    rfl
  | succ fuel ih =>
    intro l hl
    cases l with
    | nil => rfl
    | cons x xs =>
      rw [chunks_aux, List.flatten_cons,
        ih ((x :: xs).drop bs) (by rw [List.length_drop]; simp only [List.length_cons] at hl ⊢; omega),
        List.take_append_drop]

/-- Every batch is non-empty and holds at most `bs` elements. -/
theorem chunks_aux_mem {α : Type} (bs : ℕ) (hbs : 0 < bs) :
    ∀ (fuel : ℕ) (l : List α), ∀ b ∈ chunks_aux bs fuel l,
      b ≠ [] ∧ b.length ≤ bs := by
  intro fuel
  induction fuel with
  | zero => intro l b hb; simp [chunks_aux] at hb
  | succ fuel ih =>
    intro l b hb
    cases l with
    | nil => simp [chunks_aux] at hb
    | cons x xs =>
      rw [chunks_aux] at hb
      rcases List.mem_cons.mp hb with rfl | hb2
      · constructor
        · cases bs with
          | zero => omega
          | succ k => simp [List.take]
        · rw [List.length_take]
          exact min_le_left _ _
      · exact ih _ b hb2

/-- The number of batches is the length divided by `bs`, rounded up. -/
theorem chunks_aux_length {α : Type} (bs : ℕ) (hbs : 0 < bs) :
    ∀ (fuel : ℕ) (l : List α), l.length ≤ fuel →
      (chunks_aux bs fuel l).length = (l.length + bs - 1) / bs := by
  intro fuel
  induction fuel with
  | zero =>
    intro l hl
    have hnil : l = [] := List.eq_nil_of_length_eq_zero (Nat.le_zero.mp hl)
    subst hnil
    simp [chunks_aux, Nat.div_eq_of_lt (by omega : bs - 1 < bs)]
  | succ fuel ih =>
    intro l hl
    cases l with
    | nil => simp [chunks_aux, Nat.div_eq_of_lt (by omega : bs - 1 < bs)]
    | cons x xs =>
      rw [chunks_aux, List.length_cons,
        ih _ (by rw [List.length_drop]; simp only [List.length_cons] at hl ⊢; omega),
        List.length_drop]
      simp only [List.length_cons]
      by_cases hle : xs.length + 1 ≤ bs
      · rw [Nat.sub_eq_zero_of_le hle, Nat.div_eq_of_lt (by omega)]
        rw [Nat.div_eq_of_lt_le (by omega : 1 * bs ≤ xs.length + 1 + bs - 1)
          (by omega : xs.length + 1 + bs - 1 < (1 + 1) * bs)]
      · have h1 : xs.length + 1 - bs + bs - 1 = xs.length := by omega
        have h2 : xs.length + 1 + bs - 1 = xs.length + bs := by omega
        rw [h1, h2, Nat.add_div_right _ hbs]

/-- `chunks_aux` on the empty list is empty for any fuel. -/
theorem chunks_aux_nil {α : Type} (bs : ℕ) :
    ∀ fuel, chunks_aux bs fuel ([] : List α) = [] := by
  intro fuel
  cases fuel <;> rfl

/-- A non-empty list no longer than the batch size forms a single batch. -/
theorem chunks_of_short {α : Type} (bs : ℕ) (l : List α)
    (hne : l ≠ []) (hle : l.length ≤ bs) : chunks bs l = [l] := by
  cases l with
  | nil => exact absurd rfl hne
  | cons x xs =>
    rw [chunks, List.length_cons, chunks_aux, List.take_of_length_le hle,
      List.drop_eq_nil_of_le hle, chunks_aux_nil]

/-- The first element of the rendered line list is always the constant
title. -/
theorem build_message_lines_head (run_utc : String) (pairs : List PairSnapshot)
    (errors : List String) :
    ∃ rest, build_message_lines run_utc pairs errors =
      "⭐️ <b>Binance Futures Long/Short (1d)</b>" :: rest :=
  ⟨_, rfl⟩

/-- C9: with a non-empty highlighted list the notification is split into
batches of at most 10 snapshots whose concatenation is the whole list,
producing `ceil(n / 10)` messages; with at most 10 snapshots a single
message equal to the plain rendered report is sent, unsuffixed; with more
than one batch, message `i` is the rendering whose first line is the
title suffixed with `(part i/N)`. -/
theorem C9_telegram_batching :
    ∀ (run_utc : String) (imbalanced_pairs : List PairSnapshot),
      imbalanced_pairs ≠ [] →
      ((chunks 10 imbalanced_pairs).flatten = imbalanced_pairs ∧
        (∀ b ∈ chunks 10 imbalanced_pairs, b ≠ [] ∧ b.length ≤ 10)) ∧
      (telegram_messages run_utc imbalanced_pairs).length =
        (imbalanced_pairs.length + 9) / 10 ∧
      (imbalanced_pairs.length ≤ 10 →
        telegram_messages run_utc imbalanced_pairs =
          [build_message run_utc imbalanced_pairs []]) ∧
      (1 < (chunks 10 imbalanced_pairs).length →
        ∀ (i : ℕ) (msg : String),
          (telegram_messages run_utc imbalanced_pairs)[i]? = some msg →
          ∃ rest, msg = String.intercalate "\n"
            (("⭐️ <b>Binance Futures Long/Short (1d)</b>" ++ " (part " ++
              toString (i + 1) ++ "/" ++
              toString (chunks 10 imbalanced_pairs).length ++ ")") :: rest)) := by
  intro run_utc imb hne
  refine ⟨⟨chunks_aux_flatten 10 (by norm_num) imb.length imb le_rfl,
    fun b hb => chunks_aux_mem 10 (by norm_num) imb.length imb b hb⟩, ?_, ?_, ?_⟩
  · have h := chunks_aux_length 10 (by norm_num) imb.length imb le_rfl
    simp only [telegram_messages, List.length_map, List.enum_length]
    unfold chunks
    omega
  · intro hle
    have hch : chunks 10 imb = [imb] := chunks_of_short 10 imb hne hle
    simp only [telegram_messages, hch, List.enum, List.enumFrom, List.map_cons,
      List.map_nil, List.length_cons, List.length_nil]
    norm_num
  · intro htot i msg hmsg
    simp only [telegram_messages] at hmsg
    rw [List.getElem?_map, List.getElem?_enum] at hmsg
    cases hb : (chunks 10 imb)[i]? with
    | none => rw [hb] at hmsg; simp at hmsg
    | some b =>
      rw [hb] at hmsg
      simp only [Option.map_some'] at hmsg
      have hmm := Option.some.inj hmsg
      rw [if_pos htot] at hmm
      obtain ⟨restl, hrest⟩ := build_message_lines_head run_utc b []
      refine ⟨restl, ?_⟩
      rw [← hmm, hrest, add_part_suffix_lines]

/-- Witness for C9: one highlighted snapshot yields a single unsuffixed
message, and with eleven snapshots the first of the two messages carries
the `(part 1/2)` suffix on the title line. -/
theorem C9_telegram_batching_witness :
    telegram_messages "2026-01-01 00:00 UTC" [⟨"BTCUSDT", none, none, none⟩] =
      [build_message "2026-01-01 00:00 UTC" [⟨"BTCUSDT", none, none, none⟩] []] ∧
    (∃ msg rest,
      (telegram_messages "t"
        (List.replicate 11 (⟨"S", none, none, none⟩ : PairSnapshot)))[0]? =
          some msg ∧
      msg = String.intercalate "\n"
        (("⭐️ <b>Binance Futures Long/Short (1d)</b>" ++ " (part " ++
          toString (0 + 1) ++ "/" ++
          toString (chunks 10 (List.replicate 11
            (⟨"S", none, none, none⟩ : PairSnapshot))).length ++ ")") :: rest)) := by
  constructor
  · exact (C9_telegram_batching "2026-01-01 00:00 UTC"
      [⟨"BTCUSDT", none, none, none⟩] (by simp)).2.2.1 (by simp)
  · have hne : List.replicate 11 (⟨"S", none, none, none⟩ : PairSnapshot) ≠ [] := by
      simp
    have htot : 1 < (chunks 10 (List.replicate 11
        (⟨"S", none, none, none⟩ : PairSnapshot))).length := by
      have h := chunks_aux_length 10 (by norm_num)
        (List.replicate 11 (⟨"S", none, none, none⟩ : PairSnapshot)).length
        (List.replicate 11 (⟨"S", none, none, none⟩ : PairSnapshot)) le_rfl
      unfold chunks
      simp only [List.length_replicate] at h ⊢
      omega
    have hlen : 0 < (telegram_messages "t"
        (List.replicate 11 (⟨"S", none, none, none⟩ : PairSnapshot))).length := by
      rw [(C9_telegram_batching "t"
        (List.replicate 11 (⟨"S", none, none, none⟩ : PairSnapshot)) hne).2.1]
      simp
    obtain ⟨msg, hmsg⟩ : ∃ msg, (telegram_messages "t"
        (List.replicate 11 (⟨"S", none, none, none⟩ : PairSnapshot)))[0]? =
          some msg :=
      ⟨_, List.getElem?_eq_getElem hlen⟩
    obtain ⟨rest, hrest⟩ := (C9_telegram_batching "t"
      (List.replicate 11 (⟨"S", none, none, none⟩ : PairSnapshot)) hne).2.2.2
      htot 0 msg hmsg
    exact ⟨msg, rest, hmsg, hrest⟩
